import Mathlib

/- Verification of the synthetic multi-agent workload generator
   (agent app `src/agent_app/app.py` and tool backend `src/tool_service/app.py`)
   against its specification.

   Shallow embedding conventions:
   - pure computations become Lean functions on `Nat`/`ℚ`; float literals of the
     source (`0.02`, `0.2`, `0.5`, `0.1`) are read as the exact rationals they
     denote in the source text;
   - the cooperative asyncio scheduling of the fan-out and retry-storm drivers
     becomes an explicit small-step state machine driven by an arbitrary
     schedule (a list of task choices); every await point of the source is a
     step boundary, and the synchronous regions are further split into single
     actions, which only enlarges the set of interleavings quantified over;
   - randomness (the backend's per-call uniform draw, hence the retry failure
     pattern) becomes an explicit parameter: the draw `rand ∈ [0,1)` for a
     single backend call, and a `failed : worker → attempt → Bool` oracle for
     the retry-storm driver;
   - backoff intervals are modelled in exact integer milliseconds
     (`0.02 s = 20 ms`, cap `0.5 s = 500 ms`; doubling and capping are exact in
     this unit), timestamps of sequential code as a logical event counter. -/

namespace SyntheticAgents

/-- Span kinds attached as `ati.span.kind` by `_attrs` (src/agent_app/app.py
lines 31-44), restricted to the kinds the claims mention. -/
inductive SpanKind
  | planner
  | worker
  | tool_call
  | checkpoint
  deriving DecidableEq

/-- One emitted span: unique id, parent id (`none` only for a root span), kind.
The tracer of the source generates fresh random span ids; the model gives each
creation site a fixed unique id (`wsid`/`tsid`/`csid`, root planner = 0). -/
structure Span where
  sid : Nat
  parent : Option Nat
  kind : SpanKind
  deriving DecidableEq

/-! ### Simulated tool backend (src/tool_service/app.py) -/

/-- Reply of one request to the simulated tool backend `tool_call`:
`unavailable` is the HTTP 503 raised when the per-call uniform draw falls
below the error rate; `streamed` carries the emission offsets (ms after the
request) of the 50 chunk lines; `body` is the JSON response together with the
character length of the synthetic payload (`"a" * (payload_size_kb * 1024)`,
0 when `payload_size_kb = 0`). -/
inductive ToolReply
  | unavailable
  | streamed (chunk_times_ms : List ℚ)
  | body (ok : Bool) (payload_chars : Nat)
  deriving DecidableEq

/-- Sleep before each streamed chunk, in ms: `per = max(d / chunks, 1)` with
`chunks = 50` (src/tool_service/app.py line 34). -/
def per_chunk_ms (d : ℚ) : ℚ := max (d / 50) 1

/-- Emission offsets of the 50 streamed chunks: the loop body sleeps
`per_chunk_ms d` and then yields, so chunk `i` is emitted `(i+1) * per` ms
after streaming starts (src/tool_service/app.py lines 31-37). -/
def streamChunkTimes (d : ℚ) : List ℚ :=
  (List.range 50).map (fun (i : ℕ) => ((i : ℚ) + 1) * per_chunk_ms d)

/-- Simulated tool backend `tool_call` (src/tool_service/app.py lines 16-48):
`rand` is this call's uniform draw `random.random()` (a value in `[0,1)`),
`e` the effective error rate, `d` the effective delay in ms. -/
def tool_call (rand e d : ℚ) (stream : Bool) (payload_size_kb : Nat) : ToolReply :=
  if rand < e then .unavailable
  else if stream then .streamed (streamChunkTimes d)
  else .body true (payload_size_kb * 1024)

/-! ### Checkpoint simulator (src/agent_app/app.py lines 72-79) -/

/-- Sleep of the checkpoint simulator in seconds:
`min(0.5, (size_kb / 1024.0) * 0.2)` (src/agent_app/app.py line 79), with
`0.2 = 1/5` and `0.5 = 1/2` as exact rationals. -/
def checkpoint_sleep_s (size_kb : ℚ) : ℚ := min (1/2) (size_kb / 1024 * (1/5))

/-- Observable effect of one `checkpoint_write(size_kb, agent_id)` call: the
kind of the span it opens, the `ati.checkpoint.size_kb` attribute, and the
slept duration. -/
structure CheckpointSpan where
  kind : SpanKind
  size_kb_attr : ℚ
  sleep_s : ℚ
  deriving DecidableEq

/-- Model of `checkpoint_write` (src/agent_app/app.py lines 72-79). -/
def checkpoint_write (size_kb : ℚ) : CheckpointSpan :=
  { kind := .checkpoint, size_kb_attr := size_kb, sleep_s := checkpoint_sleep_s size_kb }

/-! ### Retrieval-augmented driver (src/agent_app/app.py lines 198-213) -/

/-- Observable effects of `scenario_rag(chunk_count, chunk_size_kb, delay_ms)`:
`total_kb = chunk_count * chunk_size_kb`; the retrieval span records the
attribute `ati.rag.total_kb = total_kb` and issues its tool call with
`payload_size_kb = total_kb`; the generation span then sleeps
`0.1 + total_kb / 5000.0` seconds. -/
structure RagRun where
  retrieval_total_kb_attr : Nat
  retrieval_payload_kb : Nat
  generation_sleep_s : ℚ
  deriving DecidableEq

/-- Model of `scenario_rag` (src/agent_app/app.py lines 198-213). -/
def scenario_rag (chunk_count chunk_size_kb : Nat) : RagRun :=
  { retrieval_total_kb_attr := chunk_count * chunk_size_kb
    retrieval_payload_kb := chunk_count * chunk_size_kb
    generation_sleep_s := 1/10 + ((chunk_count * chunk_size_kb : Nat) : ℚ) / 5000 }

/-! ### Error rates of the tool calls outside the retry-storm driver -/

/-- Error rate of the fan-out workers' tool calls (src/agent_app/app.py
line 95): the literal `0.0`. -/
def fanout_worker_error_rate : ℚ := 0

/-- Error rate of the chain steps' tool calls (line 110): `0.0`. -/
def chain_step_error_rate : ℚ := 0

/-- Error rate of the DAG branch workers' tool calls (line 151): `0.0`. -/
def dag_branch_error_rate : ℚ := 0

/-- Error rate of the DAG aggregator's tool call (line 157): `0.0`. -/
def dag_aggregator_error_rate : ℚ := 0

/-- Error rate of the ReAct act steps' tool calls (line 175): `0.0`. -/
def react_act_error_rate : ℚ := 0

/-- Error rate of the human-in-loop pre-step tool call (line 188): `0.0`. -/
def human_pre_error_rate : ℚ := 0

/-- Error rate of the human-in-loop post-step tool call (line 196): `0.0`. -/
def human_post_error_rate : ℚ := 0

/-- Error rate of the RAG retrieval tool call (line 205): `0.0`. -/
def rag_retrieval_error_rate : ℚ := 0

/-- Every error rate passed to `call_tool` by a scenario other than
`scenario_retry_storm` (fanout, chain, dag, react, human, rag). -/
def nonRetryErrorRates : List ℚ :=
  [fanout_worker_error_rate, chain_step_error_rate, dag_branch_error_rate,
   dag_aggregator_error_rate, react_act_error_rate, human_pre_error_rate,
   human_post_error_rate, rag_retrieval_error_rate]

/-! ### Blocking chain driver (src/agent_app/app.py lines 101-111) -/

/-- One `step` span of `scenario_blocking_chain` with the logical times of its
four events: span open, nested `tool_call` span open, tool-call completion
(tool span close), span close.  The driver is a single sequential coroutine,
so time is a logical event counter; the real `delay_ms` only stretches the
gaps between events and cannot reorder them. -/
structure ChainSpan where
  index : Nat
  openT : Nat
  toolOpenT : Nat
  toolCloseT : Nat
  closeT : Nat
  deriving DecidableEq

/-- Loop of `scenario_blocking_chain` (src/agent_app/app.py lines 104-110):
`d` steps remaining, next step index `i`, current logical time `t`.  Each
iteration opens a `step` span, runs one tool call to completion inside it and
closes it again before the next iteration starts — there is no task spawning
in this driver, hence no interleaving to quantify over. -/
def chainGo : Nat → Nat → Nat → List ChainSpan
  | 0, _, _ => []
  | d + 1, i, t => ⟨i, t, t + 1, t + 2, t + 3⟩ :: chainGo d (i + 1) (t + 4)

/-- Step spans of a depth-`depth` run of the chain scenario; the root planner
span opens at time 0 and the first step at time 1. -/
def scenario_blocking_chain (depth : Nat) : List ChainSpan := chainGo depth 0 1

/-! ### Fan-out driver as a small-step cooperative state machine
(src/agent_app/app.py lines 81-99) -/

/-- Span id of worker `i`'s `worker` span in the fan-out model. -/
def wsid (i : Nat) : Nat := 2 * i + 1

/-- Span id of worker `i`'s nested `tool_call` span in the fan-out model. -/
def tsid (i : Nat) : Nat := 2 * i + 2

/-- Span id of the final `checkpoint` span of a fan-out run with `n` workers
(distinct from every `wsid i`/`tsid i` with `i < n` and from the root 0). -/
def csid (n : Nat) : Nat := 2 * n + 1

/-- Program counter of one fan-out worker task (`one(i)` in `scenario_fanout`,
src/agent_app/app.py lines 88-95).  Every constructor boundary is either an
await point of the coroutine (semaphore acquisition, the HTTP call) or a
single synchronous action; cutting the synchronous regions into single
actions only enlarges the set of schedules quantified over. -/
inductive WPC
  | start      -- blocked on `async with sem`
  | acquired   -- holds a permit, about to open the `worker` span
  | opened     -- `worker` span open, about to open the `tool_call` span
  | inCall     -- `tool_call` span open, awaiting the backend response
  | responded  -- response received, about to close the `tool_call` span
  | closingW   -- about to close the `worker` span and release the permit
  | donePC     -- task finished
  deriving DecidableEq

/-- Planner program counter, shared by the fan-out and retry-storm drivers,
once the root `planner` span is open and the worker tasks are spawned: it
blocks on `asyncio.gather`, then runs `checkpoint_write` (opening and closing
the checkpoint span), then closes the root span. -/
inductive PPC
  | gathering
  | checkpointing
  | closingRoot
  | pdone
  deriving DecidableEq

/-- Cooperative-scheduling state of one `scenario_fanout` run. -/
structure FanoutSt where
  tasks : List WPC     -- one entry per worker task, index = worker id
  sem : Nat            -- free permits of `asyncio.Semaphore(concurrency)`
  spans : List Span    -- every span created so far, in creation order
  closed : List Nat    -- span ids in close (= export) order
  ppc : PPC
  deriving DecidableEq

/-- Worker pcs that hold a semaphore permit (`async with sem` covers the whole
body of `one(i)`). -/
def holdsSem : WPC → Bool
  | .start | .donePC => false
  | _ => true

/-- Worker pcs whose `worker` span has been created. -/
def wspanCreated : WPC → Bool
  | .start | .acquired => false
  | _ => true

/-- Worker pcs whose tool call is in flight (issued, not yet completed). -/
def inFlight : WPC → Bool
  | .inCall => true
  | _ => false

/-- One scheduler step of fan-out worker `i`: the next enabled action of
`one(i)`; a blocked or finished task leaves the state unchanged.  The
`worker` span is opened with parent 0 (the `planner` span) because
`asyncio.create_task` captures the context in which the planner span is
current, independent of interleaving; the `tool_call` span opened by
`call_tool` is then nested under the task's own `worker` span. -/
def fanoutWStep (s : FanoutSt) (i : Nat) : FanoutSt :=
  match s.tasks[i]? with
  | none => s
  | some pc =>
    match pc with
    | .start =>
        if 0 < s.sem then
          { s with sem := s.sem - 1, tasks := s.tasks.set i .acquired }
        else s
    | .acquired =>
        { s with spans := s.spans ++ [⟨wsid i, some 0, .worker⟩],
                 tasks := s.tasks.set i .opened }
    | .opened =>
        { s with spans := s.spans ++ [⟨tsid i, some (wsid i), .tool_call⟩],
                 tasks := s.tasks.set i .inCall }
    | .inCall => { s with tasks := s.tasks.set i .responded }
    | .responded =>
        { s with closed := s.closed ++ [tsid i], tasks := s.tasks.set i .closingW }
    | .closingW =>
        { s with closed := s.closed ++ [wsid i], sem := s.sem + 1,
                 tasks := s.tasks.set i .donePC }
    | .donePC => s

/-- One scheduler step of the fan-out planner coroutine: `asyncio.gather`
resumes only once every worker task is done; afterwards `checkpoint_write`
opens the checkpoint span (parent 0), closes it after its sleep, and finally
the root `planner` span is closed. -/
def fanoutPStep (n : Nat) (s : FanoutSt) : FanoutSt :=
  match s.ppc with
  | .gathering =>
      if s.tasks.all (· == .donePC) then
        { s with spans := s.spans ++ [⟨csid n, some 0, .checkpoint⟩],
                 ppc := .checkpointing }
      else s
  | .checkpointing => { s with closed := s.closed ++ [csid n], ppc := .closingRoot }
  | .closingRoot => { s with closed := s.closed ++ [0], ppc := .pdone }
  | .pdone => s

/-- One step of the cooperative scheduler: choice `0` steps the planner,
choice `i + 1` steps worker `i`. -/
def fanoutStep (n : Nat) (s : FanoutSt) : Nat → FanoutSt
  | 0 => fanoutPStep n s
  | i + 1 => fanoutWStep s i

/-- State of `scenario_fanout(concurrency, fanout, delay_ms)` just after the
root `planner` span is opened and the `fanout` worker tasks are spawned
(src/agent_app/app.py lines 82-97).  `delay_ms` only stretches the real-time
length of the `inCall` suspension and does not appear in the event model. -/
def fanoutInit (n C : Nat) : FanoutSt :=
  { tasks := List.replicate n .start, sem := C,
    spans := [⟨0, none, .planner⟩], closed := [], ppc := .gathering }

/-- A run of `scenario_fanout` with `n` workers and concurrency `C` under an
arbitrary cooperative schedule. -/
def scenario_fanout (n C : Nat) (sched : List Nat) : FanoutSt :=
  sched.foldl (fanoutStep n) (fanoutInit n C)

/-- Inductive invariant of the fan-out model, preserved by every step. -/
structure FanoutInv (n C : Nat) (s : FanoutSt) : Prop where
  len : s.tasks.length = n
  semAcct : s.sem + s.tasks.countP holdsSem = C
  plannerUnique : s.spans.countP (fun sp => sp.kind == SpanKind.planner) = 1
  workerParent : ∀ sp ∈ s.spans, sp.kind = SpanKind.worker → sp.parent = some 0
  workerCount : s.spans.countP (fun sp => sp.kind == SpanKind.worker)
      = s.tasks.countP wspanCreated
  checkpointCount : s.spans.countP (fun sp => sp.kind == SpanKind.checkpoint)
      = (if s.ppc = PPC.gathering then 0 else 1)
  allDone : s.ppc ≠ PPC.gathering → ∀ pc ∈ s.tasks, pc = WPC.donePC
  doneClosed : ∀ i, s.tasks[i]? = some WPC.donePC → wsid i ∈ s.closed
  csidFresh : (s.ppc = PPC.gathering ∨ s.ppc = PPC.checkpointing) → csid n ∉ s.closed
  csidOrder : (s.ppc = PPC.closingRoot ∨ s.ppc = PPC.pdone) →
      ∃ pre suf, s.closed = pre ++ csid n :: suf ∧ csid n ∉ pre
        ∧ ∀ i, i < n → wsid i ∈ pre

/-- Concrete schedule completing a `scenario_fanout 5 2` run: each worker runs
to completion in turn (6 steps each), then the planner checkpoints and closes
the root span. -/
def fanoutSchedW : List Nat :=
  List.replicate 6 1 ++ List.replicate 6 2 ++ List.replicate 6 3
    ++ List.replicate 6 4 ++ List.replicate 6 5 ++ [0, 0, 0]

/-! ### Retry-storm driver as a small-step cooperative state machine
(src/agent_app/app.py lines 113-138) -/

/-- Backoff value in ms after `k` doublings: `min(20 * 2^k, 500)`.  The source
works in float seconds (initial `backoff = 0.02`, `backoff = min(backoff * 2,
0.5)`); scaling to integer milliseconds is exact. -/
def backoffMs (k : Nat) : Nat := min (20 * 2 ^ k) 500

/-- Program counter of one retry-storm worker (`one(i)` in
`scenario_retry_storm`, src/agent_app/app.py lines 121-134).  `a` counts the
failures so far (the `attempt` variable of the source) and `b` is the current
backoff in ms. -/
inductive RPC
  | start                          -- blocked on `async with sem`
  | ready (a : Nat) (b : Nat)      -- holds a permit, about to issue attempt `a`
  | inCall (a : Nat) (b : Nat)     -- attempt `a` awaiting the backend
  | responded (a : Nat) (b : Nat)  -- backend outcome of attempt `a` received
  | backingOff (a : Nat) (b : Nat) -- sleeping `b` ms before issuing attempt `a`
  | donePC (ok : Bool)             -- returned; `ok = false` is `{"ok": False}`
  deriving DecidableEq

/-- One retry-storm worker task with its bookkeeping: number of `call_tool`
invocations so far, number of semaphore acquisitions, and the backoff sleeps
performed, in ms and in order. -/
structure RTask where
  pc : RPC
  calls : Nat
  acquires : Nat
  sleeps : List Nat
  deriving DecidableEq

/-- Retry-worker pcs that hold a semaphore permit (`async with sem` covers the
whole body of `one(i)`, retries and backoff sleeps included). -/
def rHolds : RPC → Bool
  | .start | .donePC _ => false
  | _ => true

/-- Retry-worker pcs whose tool call is in flight. -/
def rInFlight : RPC → Bool
  | .inCall _ _ => true
  | _ => false

/-- Retry-worker pcs sleeping in backoff. -/
def rBackingOff : RPC → Bool
  | .backingOff _ _ => true
  | _ => false

/-- Retry-worker pcs that have returned. -/
def rIsDone : RPC → Bool
  | .donePC _ => true
  | _ => false

/-- Cooperative-scheduling state of one `scenario_retry_storm` run.  Span
emission is not tracked here (the fan-out model covers span bookkeeping); this
model tracks the semaphore, the retry state machines and the join. -/
structure RetrySt where
  tasks : List RTask
  sem : Nat
  ppc : PPC
  deriving DecidableEq

/-- One scheduler step of retry-storm worker `i`.  `failed i a` says whether
attempt `a` of worker `i` raises (its uniform draw landed below `error_rate`);
the `except Exception` branch then increments `attempt`, returns the terminal
`{"ok": False}` once `attempt > max_retries`, and otherwise sleeps the
current backoff before doubling it, capped at 500 ms
(src/agent_app/app.py lines 121-134). -/
def retryWStep (maxRetries : Nat) (failed : Nat → Nat → Bool)
    (s : RetrySt) (i : Nat) : RetrySt :=
  match s.tasks[i]? with
  | none => s
  | some t =>
    match t.pc with
    | .start =>
        if 0 < s.sem then
          { s with sem := s.sem - 1,
                   tasks := s.tasks.set i
                     { t with pc := .ready 0 20, acquires := t.acquires + 1 } }
        else s
    | .ready a b =>
        { s with tasks := s.tasks.set i
                   { t with pc := .inCall a b, calls := t.calls + 1 } }
    | .inCall a b => { s with tasks := s.tasks.set i { t with pc := .responded a b } }
    | .responded a b =>
        if failed i a then
          if maxRetries < a + 1 then
            { s with sem := s.sem + 1,
                     tasks := s.tasks.set i { t with pc := .donePC false } }
          else
            { s with tasks := s.tasks.set i { t with pc := .backingOff (a + 1) b } }
        else
          { s with sem := s.sem + 1,
                   tasks := s.tasks.set i { t with pc := .donePC true } }
    | .backingOff a b =>
        { s with tasks := s.tasks.set i
                   { t with pc := .ready a (min (b * 2) 500),
                            sleeps := t.sleeps ++ [b] } }
    | .donePC _ => s

/-- One scheduler step of the retry-storm planner coroutine: `asyncio.gather`
resumes only once every worker has returned (successfully or exhausted); then
`checkpoint_write` runs and the root span is closed. -/
def retryPStep (s : RetrySt) : RetrySt :=
  match s.ppc with
  | .gathering =>
      if s.tasks.all (fun t => rIsDone t.pc) then { s with ppc := .checkpointing }
      else s
  | .checkpointing => { s with ppc := .closingRoot }
  | .closingRoot => { s with ppc := .pdone }
  | .pdone => s

/-- One step of the cooperative scheduler of the retry-storm model. -/
def retryStep (maxRetries : Nat) (failed : Nat → Nat → Bool)
    (s : RetrySt) : Nat → RetrySt
  | 0 => retryPStep s
  | i + 1 => retryWStep maxRetries failed s i

/-- State of `scenario_retry_storm` just after the root span is opened and the
`fanout` worker tasks are spawned (src/agent_app/app.py lines 114-136). -/
def retryInit (n C : Nat) : RetrySt :=
  { tasks := List.replicate n ⟨.start, 0, 0, []⟩, sem := C, ppc := .gathering }

/-- A run of `scenario_retry_storm` with `n` workers, concurrency `C`, retry
bound `maxRetries` and failure oracle `failed`, under an arbitrary
cooperative schedule. -/
def scenario_retry_storm (n C maxRetries : Nat) (failed : Nat → Nat → Bool)
    (sched : List Nat) : RetrySt :=
  sched.foldl (retryStep maxRetries failed) (retryInit n C)

/-- Per-task inductive invariant of the retry-storm model. -/
def RTaskInv (maxRetries : Nat) (failed : Nat → Nat → Bool) (i : Nat)
    (t : RTask) : Prop :=
  match t.pc with
  | .start => t.acquires = 0 ∧ t.calls = 0 ∧ t.sleeps = []
  | .ready a b => t.acquires = 1 ∧ a ≤ maxRetries ∧ b = backoffMs a
      ∧ t.calls = a ∧ t.sleeps = (List.range a).map backoffMs
  | .inCall a b => t.acquires = 1 ∧ a ≤ maxRetries ∧ b = backoffMs a
      ∧ t.calls = a + 1 ∧ t.sleeps = (List.range a).map backoffMs
  | .responded a b => t.acquires = 1 ∧ a ≤ maxRetries ∧ b = backoffMs a
      ∧ t.calls = a + 1 ∧ t.sleeps = (List.range a).map backoffMs
  | .backingOff a b => t.acquires = 1 ∧ 1 ≤ a ∧ a ≤ maxRetries
      ∧ b = backoffMs (a - 1) ∧ t.calls = a
      ∧ t.sleeps = (List.range (a - 1)).map backoffMs
  | .donePC ok => t.acquires = 1 ∧ t.calls ≤ maxRetries + 1
      ∧ (ok = false → t.calls = maxRetries + 1)
      ∧ (ok = true → ∃ k, k ≤ maxRetries ∧ failed i k = false ∧ t.calls = k + 1)
      ∧ ∃ m, m ≤ maxRetries ∧ t.sleeps = (List.range m).map backoffMs

/-- Global inductive invariant of the retry-storm model. -/
structure RetryInv (n C maxRetries : Nat) (failed : Nat → Nat → Bool)
    (s : RetrySt) : Prop where
  len : s.tasks.length = n
  semAcct : s.sem + s.tasks.countP (fun t => rHolds t.pc) = C
  taskInv : ∀ i t, s.tasks[i]? = some t → RTaskInv maxRetries failed i t
  joinBarrier : s.ppc ≠ PPC.gathering → ∀ t ∈ s.tasks, rIsDone t.pc = true

/-- Concrete schedule completing a `scenario_retry_storm 3 2 1` run under the
all-fail oracle: each worker runs to exhaustion in turn (8 steps each), then
the planner checkpoints and closes the root span. -/
def retrySchedW : List Nat :=
  List.replicate 8 1 ++ List.replicate 8 2 ++ List.replicate 8 3 ++ [0, 0, 0]

/-! ### Helper lemmas -/

theorem countP_set_step {α : Type} (p : α → Bool) (l : List α) (i : Nat) (a b : α)
    (hget : l[i]? = some a) :
    (l.set i b).countP p + (if p a then 1 else 0)
      = l.countP p + (if p b then 1 else 0) := by
  induction l generalizing i with
  | nil => simp at hget
  | cons x xs ih =>
    cases i with
    | zero =>
      simp only [List.getElem?_cons_zero, Option.some.injEq] at hget
      subst hget
      simp only [List.set_cons_zero, List.countP_cons]
      omega
    | succ j =>
      simp only [List.getElem?_cons_succ] at hget
      simp only [List.set_cons_succ, List.countP_cons]
      have := ih j hget
      omega

theorem takeWhile_append_cons {c : Nat} (pre suf : List Nat) (hc : c ∉ pre) :
    (pre ++ c :: suf).takeWhile (fun x => x != c) = pre := by
  induction pre with
  | nil => simp [List.takeWhile_cons]
  | cons a l ih =>
    have ha : a ≠ c := fun h => hc (h ▸ List.mem_cons_self a l)
    have hl : c ∉ l := fun h => hc (List.mem_cons_of_mem a h)
    simp only [List.cons_append, List.takeWhile_cons, bne_iff_ne, ne_eq, ha,
      not_false_eq_true, if_true, ih hl]

theorem countP_add_countP_le {α : Type} (l : List α) (p q r : α → Bool)
    (h : ∀ a ∈ l, (p a = true → r a = true) ∧ (q a = true → r a = true)
      ∧ ¬(p a = true ∧ q a = true)) :
    l.countP p + l.countP q ≤ l.countP r := by
  induction l with
  | nil => simp
  | cons x xs ih =>
    have hx := h x (List.mem_cons_self x xs)
    have hxs := ih fun a ha => h a (List.mem_cons_of_mem x ha)
    simp only [List.countP_cons]
    rcases hp : p x <;> rcases hq : q x <;> rcases hr : r x <;>
      simp_all <;> omega

theorem backoffMs_succ (k : Nat) : backoffMs (k + 1) = min (backoffMs k * 2) 500 := by
  simp only [backoffMs, pow_succ]
  generalize (2 : Nat) ^ k = x
  omega

theorem backoffMs_zero : backoffMs 0 = 20 := by decide

theorem backoffMs_le (k : Nat) : backoffMs k ≤ 500 := min_le_right _ _

/-- Closed form of the chain loop. -/
theorem chainGo_getElem (d i t k : Nat) (hk : k < d) :
    (chainGo d i t)[k]?
      = some ⟨i + k, t + 4 * k, t + 4 * k + 1, t + 4 * k + 2, t + 4 * k + 3⟩ := by
  induction d generalizing i t k with
  | zero => exact absurd hk (Nat.not_lt_zero k)
  | succ d ih =>
    cases k with
    | zero => simp [chainGo]
    | succ k =>
      have hrec := ih (i + 1) (t + 4) k (by omega)
      simp only [chainGo, List.getElem?_cons_succ, hrec, Option.some.injEq,
        ChainSpan.mk.injEq]
      omega

/-! ### Claim theorems for the directly-computable components -/

/-- C5 counterexample: with the stream flag set and requested delay
`d = 10` ms, the 50 streamed chunks finish at 50 ms, not at `d`: the source
floors the per-chunk sleep at 1 ms (`per = max(d / chunks, 1)`), so the total
streaming time is not equal to the requested delay. -/
theorem stream_total_neq_delay_C5_cex :
    tool_call 0 0 10 true 0 = ToolReply.streamed (streamChunkTimes 10)
    ∧ (streamChunkTimes 10)[49]? = some 50
    ∧ (streamChunkTimes 10)[49]? ≠ some 10 := by
  have hp : per_chunk_ms 10 = 1 := by
    rw [per_chunk_ms, max_eq_right (by norm_num)]
  have h49 : (streamChunkTimes 10)[49]? = some 50 := by
    rw [streamChunkTimes, List.getElem?_map, List.getElem?_range (by norm_num)]
    simp [hp]
    norm_num
  refine ⟨?_, h49, ?_⟩
  · rw [tool_call, if_neg (lt_irrefl 0), if_pos rfl]
  · rw [h49]
    simp only [ne_eq, Option.some.injEq]
    norm_num

/-- C5 amended: every successful streaming backend call produces exactly 50
chunks at the constant spacing `max(d/50, 1)` ms (chunk `j` emitted at
`(j+1) * max(d/50, 1)` ms), so the total streaming time is `max(d, 50)` ms —
equal to the requested delay `d` exactly when `d ≥ 50` ms, and 50 ms
otherwise. -/
theorem stream_chunks_C5 (rand e d : ℚ) (p : Nat) (hs : ¬ rand < e) :
    tool_call rand e d true p = ToolReply.streamed (streamChunkTimes d)
    ∧ (streamChunkTimes d).length = 50
    ∧ (∀ j : ℕ, j < 50 →
        (streamChunkTimes d)[j]? = some (((j : ℚ) + 1) * per_chunk_ms d))
    ∧ (streamChunkTimes d)[49]? = some (max d 50)
    ∧ (50 ≤ d → (streamChunkTimes d)[49]? = some d) := by
  have htot : (50 : ℚ) * per_chunk_ms d = max d 50 := by
    rw [per_chunk_ms]
    rcases le_total d 50 with h | h
    · rw [max_eq_right (by linarith), max_eq_right h]
      norm_num
    · rw [max_eq_left (by linarith), max_eq_left h]
      field_simp
  have hj : ∀ j : ℕ, j < 50 →
      (streamChunkTimes d)[j]? = some (((j : ℚ) + 1) * per_chunk_ms d) := by
    intro j hjlt
    rw [streamChunkTimes, List.getElem?_map, List.getElem?_range hjlt]
    rfl
  have h49 : (streamChunkTimes d)[49]? = some (max d 50) := by
    rw [hj 49 (by norm_num)]
    norm_num [htot]
  refine ⟨?_, ?_, hj, h49, ?_⟩
  · rw [tool_call, if_neg hs, if_pos rfl]
  · simp [streamChunkTimes]
  · intro hd
    rw [h49, max_eq_left (by linarith)]

/-- C5 witness: a successful streaming call with `d = 100 ≥ 50` finishes at
exactly 100 ms. -/
theorem stream_chunks_C5_witness :
    tool_call 0 0 100 true 0 = ToolReply.streamed (streamChunkTimes 100)
    ∧ (streamChunkTimes 100)[49]? = some 100 := by
  have h := stream_chunks_C5 0 0 100 0 (lt_irrefl 0)
  exact ⟨h.1, h.2.2.2.2 (by norm_num)⟩

/-- C6: in the chain scenario of depth `depth`, step `n`'s span opens only at
or after the time step `n-1`'s span — and the tool call inside it — has fully
closed, for every `n` in `[1, depth)`: the steps are strictly sequential. -/
theorem chain_sequential_C6 (depth n : Nat) (h1 : 1 ≤ n) (h2 : n < depth)
    (s1 s2 : ChainSpan)
    (hs1 : (scenario_blocking_chain depth)[n - 1]? = some s1)
    (hs2 : (scenario_blocking_chain depth)[n]? = some s2) :
    s1.closeT ≤ s2.openT ∧ s1.toolCloseT ≤ s2.openT := by
  rw [scenario_blocking_chain, chainGo_getElem depth 0 1 (n - 1) (by omega)] at hs1
  rw [scenario_blocking_chain, chainGo_getElem depth 0 1 n h2] at hs2
  cases hs1
  cases hs2
  simp only
  omega

/-- C6 witness: in a depth-3 chain the second step opens after the first step
has closed. -/
theorem chain_sequential_C6_witness :
    (⟨0, 1, 2, 3, 4⟩ : ChainSpan).closeT ≤ (⟨1, 5, 6, 7, 8⟩ : ChainSpan).openT
    ∧ (⟨0, 1, 2, 3, 4⟩ : ChainSpan).toolCloseT
        ≤ (⟨1, 5, 6, 7, 8⟩ : ChainSpan).openT :=
  chain_sequential_C6 3 1 (le_refl 1) (by omega) ⟨0, 1, 2, 3, 4⟩ ⟨1, 5, 6, 7, 8⟩
    (by decide) (by decide)

/-- C7: every invocation of the checkpoint simulator opens a checkpoint-kind
span and sleeps exactly `min(0.5 s, sizeKb / 1024 * 0.2 s)` — a deterministic
function of the size, never exceeding half a second. -/
theorem checkpoint_formula_C7 (size_kb : ℚ) :
    (checkpoint_write size_kb).kind = SpanKind.checkpoint
    ∧ (checkpoint_write size_kb).sleep_s = min (1/2) (size_kb / 1024 * (1/5))
    ∧ (checkpoint_write size_kb).sleep_s ≤ 1/2 :=
  ⟨rfl, rfl, min_le_left _ _⟩

/-- C8: the retrieval span's recorded payload-size attribute equals
`chunk_count * chunk_size` (also the payload size requested from the
backend), and the generation span's sleep `0.1 + total_kb / 5000` seconds is
a non-decreasing (affine-linear) function of that total size. -/
theorem rag_payload_C8 (c s c2 s2 : Nat) (h : c * s ≤ c2 * s2) :
    (scenario_rag c s).retrieval_total_kb_attr = c * s
    ∧ (scenario_rag c s).retrieval_payload_kb = c * s
    ∧ (scenario_rag c s).generation_sleep_s = 1/10 + ((c * s : Nat) : ℚ) / 5000
    ∧ (scenario_rag c s).generation_sleep_s ≤ (scenario_rag c2 s2).generation_sleep_s := by
  refine ⟨rfl, rfl, rfl, ?_⟩
  have hc : ((c * s : Nat) : ℚ) ≤ ((c2 * s2 : Nat) : ℚ) := by exact_mod_cast h
  simp only [scenario_rag]
  gcongr

/-- C8 witness: 1×2 kB retrieval against 2×2 kB retrieval. -/
theorem rag_payload_C8_witness :
    (scenario_rag 1 2).retrieval_total_kb_attr = 1 * 2
    ∧ (scenario_rag 1 2).retrieval_payload_kb = 1 * 2
    ∧ (scenario_rag 1 2).generation_sleep_s = 1/10 + ((1 * 2 : Nat) : ℚ) / 5000
    ∧ (scenario_rag 1 2).generation_sleep_s ≤ (scenario_rag 2 2).generation_sleep_s :=
  rag_payload_C8 1 2 2 2 (by norm_num)

/-- C10: every tool call issued by a scenario other than retry-storm carries
error rate `0.0`, and since the uniform draw satisfies `0 ≤ rand`, the
backend's injected-failure branch (`rand < 0`) is unreachable: no such call
can come back `unavailable`. -/
theorem no_injected_failure_C10 (rand e d : ℚ) (stream : Bool) (p : Nat)
    (he : e ∈ nonRetryErrorRates) (hr : 0 ≤ rand) :
    e = 0 ∧ tool_call rand e d stream p ≠ ToolReply.unavailable := by
  have he0 : e = 0 := by
    simp only [nonRetryErrorRates, fanout_worker_error_rate, chain_step_error_rate,
      dag_branch_error_rate, dag_aggregator_error_rate, react_act_error_rate,
      human_pre_error_rate, human_post_error_rate, rag_retrieval_error_rate,
      List.mem_cons, List.not_mem_nil, or_false, or_self] at he
    exact he
  subst he0
  refine ⟨rfl, ?_⟩
  rw [tool_call, if_neg (not_lt.mpr hr)]
  cases stream <;> simp

/-- C10 witness: the fan-out call site's error rate at draw `rand = 0`. -/
theorem no_injected_failure_C10_witness :
    fanout_worker_error_rate = 0
    ∧ tool_call 0 fanout_worker_error_rate 80 false 0 ≠ ToolReply.unavailable :=
  no_injected_failure_C10 0 fanout_worker_error_rate 80 false 0
    (by simp [nonRetryErrorRates]) (le_refl 0)

/-! ### Invariance of the fan-out model -/

theorem mem_of_getElem?_eq {α : Type} {l : List α} {i : Nat} {a : α}
    (h : l[i]? = some a) : a ∈ l := by
  rcases List.getElem?_eq_some_iff.mp h with ⟨hlt, rfl⟩
  exact List.getElem_mem hlt

theorem getElem?_set_some {α : Type} {l : List α} {i : Nat} {a : α} (b : α)
    (h : l[i]? = some a) : (l.set i b)[i]? = some b := by
  rw [List.getElem?_set_self', h]
  rfl


theorem countP_set_same {α : Type} (p : α → Bool) (l : List α) (i : Nat) (a b : α)
    (hget : l[i]? = some a) (hab : p a = p b) :
    (l.set i b).countP p = l.countP p := by
  have h := countP_set_step p l i a b hget
  rw [hab] at h
  omega

theorem countP_set_incr {α : Type} (p : α → Bool) (l : List α) (i : Nat) (a b : α)
    (hget : l[i]? = some a) (ha : p a = false) (hb : p b = true) :
    (l.set i b).countP p = l.countP p + 1 := by
  have h := countP_set_step p l i a b hget
  rw [ha, hb] at h
  simp only [Bool.false_eq_true, if_false, if_true] at h
  omega

theorem countP_set_decr {α : Type} (p : α → Bool) (l : List α) (i : Nat) (a b : α)
    (hget : l[i]? = some a) (ha : p a = true) (hb : p b = false) :
    l.countP p = (l.set i b).countP p + 1 := by
  have h := countP_set_step p l i a b hget
  rw [ha, hb] at h
  simp only [Bool.false_eq_true, if_false, if_true] at h
  omega

theorem fanoutInv_init (n C : Nat) : FanoutInv n C (fanoutInit n C) := by
  have hrep : ∀ (p : WPC → Bool), p WPC.start = false →
      (List.replicate n WPC.start).countP p = 0 := by
    intro p hp
    exact List.countP_eq_zero.mpr fun a ha => by rw [List.eq_of_mem_replicate ha, hp]; simp
  refine ⟨?_, ?_, ?_, ?_, ?_, ?_, ?_, ?_, ?_, ?_⟩
  · exact List.length_replicate n WPC.start
  · simp only [fanoutInit, hrep holdsSem rfl]
    omega
  · simp only [fanoutInit]
    rfl
  · intro sp hsp hkind
    simp only [fanoutInit, List.mem_singleton] at hsp
    subst hsp
    simp at hkind
  · simp only [fanoutInit, hrep wspanCreated rfl]
    rfl
  · simp only [fanoutInit, if_pos rfl]
    rfl
  · intro hne
    exact absurd rfl hne
  · intro j hj
    simp only [fanoutInit, List.getElem?_replicate] at hj
    split at hj
    · simp at hj
    · simp at hj
  · intro _ hmem
    simp only [fanoutInit] at hmem
    exact List.not_mem_nil _ hmem
  · intro hor
    rcases hor with h1 | h1 <;> simp only [fanoutInit] at h1 <;> cases h1

theorem fanoutInv_wstep (n C : Nat) (s : FanoutSt) (i : Nat)
    (h : FanoutInv n C s) : FanoutInv n C (fanoutWStep s i) := by
  cases hget : s.tasks[i]? with
  | none => simpa only [fanoutWStep, hget] using h
  | some pc =>
    have hi : i < s.tasks.length := (List.getElem?_eq_some_iff.mp hget).1
    have hin : i < n := h.len ▸ hi
    have hmem : pc ∈ s.tasks := mem_of_getElem?_eq hget
    have hppcgoal : ∀ {P : Prop}, (s.ppc = PPC.closingRoot ∨ s.ppc = PPC.pdone) →
        pc ≠ WPC.donePC → P := by
      intro P hor hpc
      have hne : s.ppc ≠ PPC.gathering := by
        rcases hor with h1 | h1 <;> rw [h1] <;> intro h2 <;> cases h2
      exact absurd (h.allDone hne pc hmem) hpc
    have hnotgather : ∀ {P : Prop}, s.ppc ≠ PPC.gathering → pc ≠ WPC.donePC → P := by
      intro P hne hpc
      exact absurd (h.allDone hne pc hmem) hpc
    cases pc with
    | start =>
      by_cases hsem : 0 < s.sem
      · simp only [fanoutWStep, hget, if_pos hsem]
        have hc := countP_set_incr holdsSem s.tasks i _ WPC.acquired hget rfl rfl
        have hw := countP_set_same wspanCreated s.tasks i _ WPC.acquired hget rfl
        refine ⟨?_, ?_, h.plannerUnique, h.workerParent, ?_, h.checkpointCount,
          ?_, ?_, h.csidFresh, ?_⟩
        · dsimp only
          simp [List.length_set, h.len]
        · dsimp only
          rw [hc]
          have := h.semAcct
          omega
        · dsimp only
          rw [hw]
          exact h.workerCount
        · intro hne
          exact hnotgather hne (by simp)
        · intro j hj
          dsimp only at hj
          by_cases hij : i = j
          · subst hij
            rw [getElem?_set_some _ hget] at hj
            simp at hj
          · rw [List.getElem?_set_ne hij] at hj
            exact h.doneClosed j hj
        · intro hor
          exact hppcgoal hor (by simp)
      · simpa only [fanoutWStep, hget, if_neg hsem] using h
    | acquired =>
      simp only [fanoutWStep, hget]
      have hc := countP_set_same holdsSem s.tasks i _ WPC.opened hget rfl
      have hw := countP_set_incr wspanCreated s.tasks i _ WPC.opened hget rfl rfl
      refine ⟨?_, ?_, ?_, ?_, ?_, ?_, ?_, ?_, h.csidFresh, ?_⟩
      · dsimp only
        simp [List.length_set, h.len]
      · dsimp only
        rw [hc]
        exact h.semAcct
      · dsimp only
        rw [List.countP_append, h.plannerUnique]
        rfl
      · intro sp hsp hkind
        dsimp only at hsp
        rcases List.mem_append.mp hsp with hold | hnew
        · exact h.workerParent sp hold hkind
        · simp only [List.mem_singleton] at hnew
          subst hnew
          rfl
      · dsimp only
        rw [List.countP_append, h.workerCount, hw]
        rfl
      · dsimp only
        rw [List.countP_append, h.checkpointCount]
        rfl
      · intro hne
        exact hnotgather hne (by simp)
      · intro j hj
        dsimp only at hj
        by_cases hij : i = j
        · subst hij
          rw [getElem?_set_some _ hget] at hj
          simp at hj
        · rw [List.getElem?_set_ne hij] at hj
          exact h.doneClosed j hj
      · intro hor
        exact hppcgoal hor (by simp)
    | opened =>
      simp only [fanoutWStep, hget]
      have hc := countP_set_same holdsSem s.tasks i _ WPC.inCall hget rfl
      have hw := countP_set_same wspanCreated s.tasks i _ WPC.inCall hget rfl
      refine ⟨?_, ?_, ?_, ?_, ?_, ?_, ?_, ?_, h.csidFresh, ?_⟩
      · dsimp only
        simp [List.length_set, h.len]
      · dsimp only
        rw [hc]
        exact h.semAcct
      · dsimp only
        rw [List.countP_append, h.plannerUnique]
        rfl
      · intro sp hsp hkind
        dsimp only at hsp
        rcases List.mem_append.mp hsp with hold | hnew
        · exact h.workerParent sp hold hkind
        · simp only [List.mem_singleton] at hnew
          subst hnew
          simp at hkind
      · dsimp only
        rw [List.countP_append, h.workerCount, hw]
        rfl
      · dsimp only
        rw [List.countP_append, h.checkpointCount]
        rfl
      · intro hne
        exact hnotgather hne (by simp)
      · intro j hj
        dsimp only at hj
        by_cases hij : i = j
        · subst hij
          rw [getElem?_set_some _ hget] at hj
          simp at hj
        · rw [List.getElem?_set_ne hij] at hj
          exact h.doneClosed j hj
      · intro hor
        exact hppcgoal hor (by simp)
    | inCall =>
      simp only [fanoutWStep, hget]
      have hc := countP_set_same holdsSem s.tasks i _ WPC.responded hget rfl
      have hw := countP_set_same wspanCreated s.tasks i _ WPC.responded hget rfl
      refine ⟨?_, ?_, h.plannerUnique, h.workerParent, ?_, h.checkpointCount,
        ?_, ?_, h.csidFresh, ?_⟩
      · dsimp only
        simp [List.length_set, h.len]
      · dsimp only
        rw [hc]
        exact h.semAcct
      · dsimp only
        rw [hw]
        exact h.workerCount
      · intro hne
        exact hnotgather hne (by simp)
      · intro j hj
        dsimp only at hj
        by_cases hij : i = j
        · subst hij
          rw [getElem?_set_some _ hget] at hj
          simp at hj
        · rw [List.getElem?_set_ne hij] at hj
          exact h.doneClosed j hj
      · intro hor
        exact hppcgoal hor (by simp)
    | responded =>
      simp only [fanoutWStep, hget]
      have hc := countP_set_same holdsSem s.tasks i _ WPC.closingW hget rfl
      have hw := countP_set_same wspanCreated s.tasks i _ WPC.closingW hget rfl
      refine ⟨?_, ?_, h.plannerUnique, h.workerParent, ?_, h.checkpointCount,
        ?_, ?_, ?_, ?_⟩
      · dsimp only
        simp [List.length_set, h.len]
      · dsimp only
        rw [hc]
        exact h.semAcct
      · dsimp only
        rw [hw]
        exact h.workerCount
      · intro hne
        exact hnotgather hne (by simp)
      · intro j hj
        dsimp only at hj
        by_cases hij : i = j
        · subst hij
          rw [getElem?_set_some _ hget] at hj
          simp at hj
        · rw [List.getElem?_set_ne hij] at hj
          exact List.mem_append_left _ (h.doneClosed j hj)
      · intro hor hmem2
        dsimp only at hmem2
        rcases List.mem_append.mp hmem2 with hold | hnew
        · exact h.csidFresh hor hold
        · simp only [List.mem_singleton, tsid, csid] at hnew
          omega
      · intro hor
        exact hppcgoal hor (by simp)
    | closingW =>
      simp only [fanoutWStep, hget]
      have hc := countP_set_decr holdsSem s.tasks i _ WPC.donePC hget rfl rfl
      have hw := countP_set_same wspanCreated s.tasks i _ WPC.donePC hget rfl
      refine ⟨?_, ?_, h.plannerUnique, h.workerParent, ?_, h.checkpointCount,
        ?_, ?_, ?_, ?_⟩
      · dsimp only
        simp [List.length_set, h.len]
      · dsimp only
        have := h.semAcct
        omega
      · dsimp only
        rw [hw]
        exact h.workerCount
      · intro hne
        exact hnotgather hne (by simp)
      · intro j hj
        dsimp only at hj
        by_cases hij : i = j
        · subst hij
          exact List.mem_append_right _ (List.mem_singleton.mpr rfl)
        · rw [List.getElem?_set_ne hij] at hj
          exact List.mem_append_left _ (h.doneClosed j hj)
      · intro hor hmem2
        dsimp only at hmem2
        rcases List.mem_append.mp hmem2 with hold | hnew
        · exact h.csidFresh hor hold
        · simp only [List.mem_singleton, wsid, csid] at hnew
          omega
      · intro hor
        exact hppcgoal hor (by simp)
    | donePC => simpa only [fanoutWStep, hget] using h

theorem fanoutInv_pstep (n C : Nat) (s : FanoutSt) (h : FanoutInv n C s) :
    FanoutInv n C (fanoutPStep n s) := by
  cases hppc : s.ppc with
  | gathering =>
    cases hall : s.tasks.all (· == WPC.donePC) with
    | false => simpa only [fanoutPStep, hppc, hall, Bool.false_eq_true, if_false] using h
    | true =>
      simp only [fanoutPStep, hppc, hall, if_true]
      have halld : ∀ pc ∈ s.tasks, pc = WPC.donePC := by
        intro pc hpc
        have := List.all_eq_true.mp hall pc hpc
        exact beq_iff_eq.mp this
      refine ⟨h.len, h.semAcct, ?_, ?_, ?_, ?_, ?_, h.doneClosed, ?_, ?_⟩
      · dsimp only
        rw [List.countP_append, h.plannerUnique]
        rfl
      · intro sp hsp hkind
        dsimp only at hsp
        rcases List.mem_append.mp hsp with hold | hnew
        · exact h.workerParent sp hold hkind
        · simp only [List.mem_singleton] at hnew
          subst hnew
          simp at hkind
      · dsimp only
        rw [List.countP_append, h.workerCount]
        rfl
      · dsimp only
        rw [List.countP_append, h.checkpointCount, hppc, if_pos rfl]
        simp
      · intro _
        exact halld
      · intro _
        exact h.csidFresh (Or.inl hppc)
      · intro hor
        rcases hor with h1 | h1 <;> cases h1
  | checkpointing =>
    simp only [fanoutPStep, hppc]
    have hne : s.ppc ≠ PPC.gathering := by rw [hppc]; intro h2; cases h2
    refine ⟨h.len, h.semAcct, h.plannerUnique, h.workerParent, h.workerCount,
      ?_, ?_, ?_, ?_, ?_⟩
    · dsimp only
      rw [h.checkpointCount, hppc]
      rfl
    · intro _
      exact h.allDone hne
    · intro j hj
      dsimp only
      exact List.mem_append_left _ (h.doneClosed j hj)
    · intro hor
      rcases hor with h1 | h1 <;> cases h1
    · intro _
      refine ⟨s.closed, [], rfl, h.csidFresh (Or.inr hppc), ?_⟩
      intro j hj
      have hjlen : j < s.tasks.length := by rw [h.len]; exact hj
      have hget : s.tasks[j]? = some s.tasks[j] := List.getElem?_eq_getElem hjlen
      have hdone : s.tasks[j] = WPC.donePC :=
        h.allDone hne _ (List.getElem_mem hjlen)
      rw [hdone] at hget
      exact h.doneClosed j hget
  | closingRoot =>
    simp only [fanoutPStep, hppc]
    have hne : s.ppc ≠ PPC.gathering := by rw [hppc]; intro h2; cases h2
    refine ⟨h.len, h.semAcct, h.plannerUnique, h.workerParent, h.workerCount,
      ?_, ?_, ?_, ?_, ?_⟩
    · dsimp only
      rw [h.checkpointCount, hppc]
      rfl
    · intro _
      exact h.allDone hne
    · intro j hj
      dsimp only
      exact List.mem_append_left _ (h.doneClosed j hj)
    · intro hor
      rcases hor with h1 | h1 <;> cases h1
    · intro _
      rcases h.csidOrder (Or.inl hppc) with ⟨pre, suf, heq, hfresh, hws⟩
      refine ⟨pre, suf ++ [0], ?_, hfresh, hws⟩
      dsimp only
      rw [heq, List.append_assoc]
      rfl
  | pdone => simpa only [fanoutPStep, hppc] using h

theorem fanoutInv_run (n C : Nat) (sched : List Nat) :
    FanoutInv n C (scenario_fanout n C sched) := by
  rw [scenario_fanout]
  have hstep : ∀ (s : FanoutSt) (who : Nat),
      FanoutInv n C s → FanoutInv n C (fanoutStep n s who) := by
    intro s who hs
    cases who with
    | zero => exact fanoutInv_pstep n C s hs
    | succ i => exact fanoutInv_wstep n C s i hs
  have hgen : ∀ (l : List Nat) (s : FanoutSt),
      FanoutInv n C s → FanoutInv n C (l.foldl (fanoutStep n) s) := by
    intro l
    induction l with
    | nil => intro s hs; exact hs
    | cons a l ih =>
      intro s hs
      exact ih _ (hstep s a hs)
  exact hgen sched _ (fanoutInv_init n C)

theorem fanoutStep_spans_mono (n : Nat) (s : FanoutSt) (who : Nat) (sp : Span)
    (h : sp ∈ s.spans) : sp ∈ (fanoutStep n s who).spans := by
  cases who with
  | zero =>
    show sp ∈ (fanoutPStep n s).spans
    cases hppc : s.ppc with
    | gathering =>
      cases hall : s.tasks.all (· == WPC.donePC) with
      | false => simpa only [fanoutPStep, hppc, hall, Bool.false_eq_true, if_false] using h
      | true =>
        simp only [fanoutPStep, hppc, hall, if_true]
        exact List.mem_append_left _ h
    | checkpointing => simpa only [fanoutPStep, hppc] using h
    | closingRoot => simpa only [fanoutPStep, hppc] using h
    | pdone => simpa only [fanoutPStep, hppc] using h
  | succ i =>
    show sp ∈ (fanoutWStep s i).spans
    cases hget : s.tasks[i]? with
    | none => simpa only [fanoutWStep, hget] using h
    | some pc =>
      cases pc with
      | start =>
        by_cases hsem : 0 < s.sem
        · simpa only [fanoutWStep, hget, if_pos hsem] using h
        · simpa only [fanoutWStep, hget, if_neg hsem] using h
      | acquired =>
        simp only [fanoutWStep, hget]
        exact List.mem_append_left _ h
      | opened =>
        simp only [fanoutWStep, hget]
        exact List.mem_append_left _ h
      | inCall => simpa only [fanoutWStep, hget] using h
      | responded => simpa only [fanoutWStep, hget] using h
      | closingW => simpa only [fanoutWStep, hget] using h
      | donePC => simpa only [fanoutWStep, hget] using h

/-- Spans are only ever appended, so the root `planner` span opened by
`scenario_fanout` before spawning the workers is in every reachable state. -/
theorem fanout_root_mem (n C : Nat) (sched : List Nat) :
    (⟨0, none, SpanKind.planner⟩ : Span) ∈ (scenario_fanout n C sched).spans := by
  rw [scenario_fanout]
  have hgen : ∀ (l : List Nat) (s : FanoutSt),
      (⟨0, none, SpanKind.planner⟩ : Span) ∈ s.spans →
      (⟨0, none, SpanKind.planner⟩ : Span) ∈ (l.foldl (fanoutStep n) s).spans := by
    intro l
    induction l with
    | nil => intro s hs; exact hs
    | cons a l ih =>
      intro s hs
      exact ih _ (fanoutStep_spans_mono n s a _ hs)
  exact hgen sched _ (List.mem_singleton.mpr rfl)

/-- C1: under every cooperative schedule that completes the run, the fan-out
scenario with `fanout = 5`, `concurrency = 2` emits exactly 5 worker-kind
spans, each a child of the planner span — which is the unique planner-kind
span and is the root (parent `none`) — so every concurrently launched worker
inherits the planner span as parent independent of the interleaving; and it
emits exactly one checkpoint-kind span, exported only after all 5 worker
spans have been exported.  `delay_ms = 10` only scales the real-time duration
of the tool-call suspension, which the event model abstracts. -/
theorem fanout_topology_C1 (sched : List Nat)
    (hdone : (scenario_fanout 5 2 sched).ppc = PPC.pdone) :
    (scenario_fanout 5 2 sched).spans.countP (fun sp => sp.kind == SpanKind.worker) = 5
    ∧ (∀ sp ∈ (scenario_fanout 5 2 sched).spans,
        sp.kind = SpanKind.worker → sp.parent = some 0)
    ∧ (⟨0, none, SpanKind.planner⟩ : Span) ∈ (scenario_fanout 5 2 sched).spans
    ∧ (scenario_fanout 5 2 sched).spans.countP (fun sp => sp.kind == SpanKind.planner) = 1
    ∧ (scenario_fanout 5 2 sched).spans.countP (fun sp => sp.kind == SpanKind.checkpoint) = 1
    ∧ (∀ i, i < 5 →
        wsid i ∈ (scenario_fanout 5 2 sched).closed.takeWhile (fun x => x != csid 5)) := by
  have h := fanoutInv_run 5 2 sched
  have hne : (scenario_fanout 5 2 sched).ppc ≠ PPC.gathering := by
    rw [hdone]
    intro h2
    cases h2
  have halld := h.allDone hne
  refine ⟨?_, h.workerParent, fanout_root_mem 5 2 sched, h.plannerUnique, ?_, ?_⟩
  · rw [h.workerCount, List.countP_eq_length.mpr, h.len]
    intro pc hpc
    rw [halld pc hpc]
    rfl
  · rw [h.checkpointCount, if_neg hne]
  · rcases h.csidOrder (Or.inr hdone) with ⟨pre, suf, heq, hfresh, hws⟩
    intro i hi
    rw [heq, takeWhile_append_cons pre suf hfresh]
    exact hws i hi

set_option maxRecDepth 8000 in
/-- C1 witness: the sequential schedule `fanoutSchedW` completes the run and
exhibits the claimed span counts, parentage and ordering. -/
theorem fanout_topology_C1_witness :
    (scenario_fanout 5 2 fanoutSchedW).spans.countP (fun sp => sp.kind == SpanKind.worker) = 5
    ∧ (scenario_fanout 5 2 fanoutSchedW).spans.countP (fun sp => sp.kind == SpanKind.checkpoint) = 1
    ∧ wsid 0 ∈ (scenario_fanout 5 2 fanoutSchedW).closed.takeWhile (fun x => x != csid 5) := by
  have h := fanout_topology_C1 fanoutSchedW (by decide)
  exact ⟨h.1, h.2.2.2.2.1, h.2.2.2.2.2 0 (by omega)⟩

/-! ### Invariance of the retry-storm model -/

theorem backoffMs_pred (a : Nat) (h : 1 ≤ a) :
    min (backoffMs (a - 1) * 2) 500 = backoffMs a := by
  have hs := backoffMs_succ (a - 1)
  rw [Nat.sub_add_cancel h] at hs
  exact hs.symm

theorem range_map_snoc (f : Nat → Nat) (a : Nat) (h : 1 ≤ a) :
    (List.range (a - 1)).map f ++ [f (a - 1)] = (List.range a).map f := by
  obtain ⟨m, rfl⟩ : ∃ m, a = m + 1 := ⟨a - 1, by omega⟩
  simp [List.range_succ]

theorem retryInv_init (n C maxRetries : Nat) (failed : Nat → Nat → Bool) :
    RetryInv n C maxRetries failed (retryInit n C) := by
  refine ⟨?_, ?_, ?_, ?_⟩
  · exact List.length_replicate n _
  · simp only [retryInit]
    rw [List.countP_eq_zero.mpr, Nat.add_zero]
    intro t ht
    rw [List.eq_of_mem_replicate ht]
    simp [rHolds]
  · intro j t hjt
    simp only [retryInit, List.getElem?_replicate] at hjt
    split at hjt
    · cases hjt
      exact ⟨rfl, rfl, rfl⟩
    · cases hjt
  · intro hne
    exact absurd rfl hne


theorem retryInv_wstep (n C maxRetries : Nat) (failed : Nat → Nat → Bool)
    (s : RetrySt) (i : Nat) (h : RetryInv n C maxRetries failed s) :
    RetryInv n C maxRetries failed (retryWStep maxRetries failed s i) := by
  cases hget : s.tasks[i]? with
  | none => simpa only [retryWStep, hget] using h
  | some t =>
    have hmem : t ∈ s.tasks := mem_of_getElem?_eq hget
    have hti := h.taskInv i t hget
    have hdoneclash : ∀ {P : Prop}, s.ppc ≠ PPC.gathering →
        rIsDone t.pc = false → P := by
      intro P hne hfalse
      have := h.joinBarrier hne t hmem
      rw [hfalse] at this
      cases this
    rcases t with ⟨pc, calls, acq, sleeps⟩
    cases pc with
    | start =>
      by_cases hsem : 0 < s.sem
      · simp only [retryWStep, hget, if_pos hsem]
        have hacq : acq = 0 := hti.1
        have hcalls : calls = 0 := hti.2.1
        have hsleeps : sleeps = [] := hti.2.2
        have hc := countP_set_incr (fun (v : RTask) => rHolds v.pc) s.tasks i
          ⟨RPC.start, calls, acq, sleeps⟩
          ⟨RPC.ready 0 20, calls, acq + 1, sleeps⟩ hget rfl rfl
        refine ⟨?_, ?_, ?_, ?_⟩
        · dsimp only
          simp [List.length_set, h.len]
        · dsimp only
          rw [hc]
          have := h.semAcct
          omega
        · intro j u hju
          dsimp only at hju
          by_cases hij : i = j
          · subst hij
            rw [getElem?_set_some _ hget] at hju
            cases hju
            refine ⟨?_, Nat.zero_le _, ?_, ?_, ?_⟩
            · show acq + 1 = 1
              omega
            · show (20 : Nat) = backoffMs 0
              rw [backoffMs_zero]
            · show calls = 0
              exact hcalls
            · show sleeps = (List.range 0).map backoffMs
              rw [hsleeps]
              rfl
          · rw [List.getElem?_set_ne hij] at hju
            exact h.taskInv j u hju
        · intro hne
          exact hdoneclash hne rfl
      · simpa only [retryWStep, hget, if_neg hsem] using h
    | ready a b =>
      simp only [retryWStep, hget]
      have hacq : acq = 1 := hti.1
      have hle : a ≤ maxRetries := hti.2.1
      have hb : b = backoffMs a := hti.2.2.1
      have hcalls : calls = a := hti.2.2.2.1
      have hsleeps : sleeps = (List.range a).map backoffMs := hti.2.2.2.2
      have hc := countP_set_same (fun (v : RTask) => rHolds v.pc) s.tasks i
        ⟨RPC.ready a b, calls, acq, sleeps⟩
        ⟨RPC.inCall a b, calls + 1, acq, sleeps⟩ hget rfl
      refine ⟨?_, ?_, ?_, ?_⟩
      · dsimp only
        simp [List.length_set, h.len]
      · dsimp only
        rw [hc]
        exact h.semAcct
      · intro j u hju
        dsimp only at hju
        by_cases hij : i = j
        · subst hij
          rw [getElem?_set_some _ hget] at hju
          cases hju
          refine ⟨hacq, hle, hb, ?_, hsleeps⟩
          show calls + 1 = a + 1
          omega
        · rw [List.getElem?_set_ne hij] at hju
          exact h.taskInv j u hju
      · intro hne
        exact hdoneclash hne rfl
    | inCall a b =>
      simp only [retryWStep, hget]
      have hacq : acq = 1 := hti.1
      have hle : a ≤ maxRetries := hti.2.1
      have hb : b = backoffMs a := hti.2.2.1
      have hcalls : calls = a + 1 := hti.2.2.2.1
      have hsleeps : sleeps = (List.range a).map backoffMs := hti.2.2.2.2
      have hc := countP_set_same (fun (v : RTask) => rHolds v.pc) s.tasks i
        ⟨RPC.inCall a b, calls, acq, sleeps⟩
        ⟨RPC.responded a b, calls, acq, sleeps⟩ hget rfl
      refine ⟨?_, ?_, ?_, ?_⟩
      · dsimp only
        simp [List.length_set, h.len]
      · dsimp only
        rw [hc]
        exact h.semAcct
      · intro j u hju
        dsimp only at hju
        by_cases hij : i = j
        · subst hij
          rw [getElem?_set_some _ hget] at hju
          cases hju
          exact ⟨hacq, hle, hb, hcalls, hsleeps⟩
        · rw [List.getElem?_set_ne hij] at hju
          exact h.taskInv j u hju
      · intro hne
        exact hdoneclash hne rfl
    | responded a b =>
      have hacq : acq = 1 := hti.1
      have hle : a ≤ maxRetries := hti.2.1
      have hb : b = backoffMs a := hti.2.2.1
      have hcalls : calls = a + 1 := hti.2.2.2.1
      have hsleeps : sleeps = (List.range a).map backoffMs := hti.2.2.2.2
      cases hfail : failed i a with
      | true =>
        by_cases hret : maxRetries < a + 1
        · simp only [retryWStep, hget, hfail, if_true, if_pos hret]
          have hc := countP_set_decr (fun (v : RTask) => rHolds v.pc) s.tasks i
            ⟨RPC.responded a b, calls, acq, sleeps⟩
            ⟨RPC.donePC false, calls, acq, sleeps⟩ hget rfl rfl
          refine ⟨?_, ?_, ?_, ?_⟩
          · dsimp only
            simp [List.length_set, h.len]
          · dsimp only
            have := h.semAcct
            omega
          · intro j u hju
            dsimp only at hju
            by_cases hij : i = j
            · subst hij
              rw [getElem?_set_some _ hget] at hju
              cases hju
              refine ⟨hacq, ?_, ?_, ?_, ⟨a, hle, hsleeps⟩⟩
              · show calls ≤ maxRetries + 1
                omega
              · intro _
                show calls = maxRetries + 1
                omega
              · intro hok
                cases hok
            · rw [List.getElem?_set_ne hij] at hju
              exact h.taskInv j u hju
          · intro hne
            exact hdoneclash hne rfl
        · simp only [retryWStep, hget, hfail, if_true, if_neg hret]
          have hc := countP_set_same (fun (v : RTask) => rHolds v.pc) s.tasks i
            ⟨RPC.responded a b, calls, acq, sleeps⟩
            ⟨RPC.backingOff (a + 1) b, calls, acq, sleeps⟩ hget rfl
          refine ⟨?_, ?_, ?_, ?_⟩
          · dsimp only
            simp [List.length_set, h.len]
          · dsimp only
            rw [hc]
            exact h.semAcct
          · intro j u hju
            dsimp only at hju
            by_cases hij : i = j
            · subst hij
              rw [getElem?_set_some _ hget] at hju
              cases hju
              refine ⟨hacq, Nat.le_add_left 1 a, ?_, ?_, hcalls, ?_⟩
              · show a + 1 ≤ maxRetries
                omega
              · show b = backoffMs (a + 1 - 1)
                simp only [Nat.add_sub_cancel]
                exact hb
              · show sleeps = (List.range (a + 1 - 1)).map backoffMs
                simp only [Nat.add_sub_cancel]
                exact hsleeps
            · rw [List.getElem?_set_ne hij] at hju
              exact h.taskInv j u hju
          · intro hne
            exact hdoneclash hne rfl
      | false =>
        simp only [retryWStep, hget, hfail, Bool.false_eq_true, if_false]
        have hc := countP_set_decr (fun (v : RTask) => rHolds v.pc) s.tasks i
          ⟨RPC.responded a b, calls, acq, sleeps⟩
          ⟨RPC.donePC true, calls, acq, sleeps⟩ hget rfl rfl
        refine ⟨?_, ?_, ?_, ?_⟩
        · dsimp only
          simp [List.length_set, h.len]
        · dsimp only
          have := h.semAcct
          omega
        · intro j u hju
          dsimp only at hju
          by_cases hij : i = j
          · subst hij
            rw [getElem?_set_some _ hget] at hju
            cases hju
            refine ⟨hacq, ?_, ?_, ?_, ⟨a, hle, hsleeps⟩⟩
            · show calls ≤ maxRetries + 1
              omega
            · intro hok
              cases hok
            · intro _
              exact ⟨a, hle, hfail, hcalls⟩
          · rw [List.getElem?_set_ne hij] at hju
            exact h.taskInv j u hju
        · intro hne
          exact hdoneclash hne rfl
    | backingOff a b =>
      simp only [retryWStep, hget]
      have hacq : acq = 1 := hti.1
      have hone : 1 ≤ a := hti.2.1
      have hle : a ≤ maxRetries := hti.2.2.1
      have hb : b = backoffMs (a - 1) := hti.2.2.2.1
      have hcalls : calls = a := hti.2.2.2.2.1
      have hsleeps : sleeps = (List.range (a - 1)).map backoffMs := hti.2.2.2.2.2
      have hc := countP_set_same (fun (v : RTask) => rHolds v.pc) s.tasks i
        ⟨RPC.backingOff a b, calls, acq, sleeps⟩
        ⟨RPC.ready a (min (b * 2) 500), calls, acq, sleeps ++ [b]⟩ hget rfl
      refine ⟨?_, ?_, ?_, ?_⟩
      · dsimp only
        simp [List.length_set, h.len]
      · dsimp only
        rw [hc]
        exact h.semAcct
      · intro j u hju
        dsimp only at hju
        by_cases hij : i = j
        · subst hij
          rw [getElem?_set_some _ hget] at hju
          cases hju
          refine ⟨hacq, hle, ?_, hcalls, ?_⟩
          · show min (b * 2) 500 = backoffMs a
            rw [hb, backoffMs_pred a hone]
          · show sleeps ++ [b] = (List.range a).map backoffMs
            rw [hsleeps, hb, range_map_snoc backoffMs a hone]
        · rw [List.getElem?_set_ne hij] at hju
          exact h.taskInv j u hju
      · intro hne
        exact hdoneclash hne rfl
    | donePC ok => simpa only [retryWStep, hget] using h

theorem retryInv_pstep (n C maxRetries : Nat) (failed : Nat → Nat → Bool)
    (s : RetrySt) (h : RetryInv n C maxRetries failed s) :
    RetryInv n C maxRetries failed (retryPStep s) := by
  cases hppc : s.ppc with
  | gathering =>
    cases hall : s.tasks.all (fun t => rIsDone t.pc) with
    | false => simpa only [retryPStep, hppc, hall, Bool.false_eq_true, if_false] using h
    | true =>
      simp only [retryPStep, hppc, hall, if_true]
      exact ⟨h.len, h.semAcct, h.taskInv, fun _ => List.all_eq_true.mp hall⟩
  | checkpointing =>
    simp only [retryPStep, hppc]
    have hne : s.ppc ≠ PPC.gathering := by rw [hppc]; intro h2; cases h2
    exact ⟨h.len, h.semAcct, h.taskInv, fun _ => h.joinBarrier hne⟩
  | closingRoot =>
    simp only [retryPStep, hppc]
    have hne : s.ppc ≠ PPC.gathering := by rw [hppc]; intro h2; cases h2
    exact ⟨h.len, h.semAcct, h.taskInv, fun _ => h.joinBarrier hne⟩
  | pdone => simpa only [retryPStep, hppc] using h

theorem retryInv_run (n C maxRetries : Nat) (failed : Nat → Nat → Bool)
    (sched : List Nat) :
    RetryInv n C maxRetries failed (scenario_retry_storm n C maxRetries failed sched) := by
  rw [scenario_retry_storm]
  have hstep : ∀ (s : RetrySt) (who : Nat),
      RetryInv n C maxRetries failed s →
      RetryInv n C maxRetries failed (retryStep maxRetries failed s who) := by
    intro s who hs
    cases who with
    | zero => exact retryInv_pstep n C maxRetries failed s hs
    | succ i => exact retryInv_wstep n C maxRetries failed s i hs
  have hgen : ∀ (l : List Nat) (s : RetrySt),
      RetryInv n C maxRetries failed s →
      RetryInv n C maxRetries failed (l.foldl (retryStep maxRetries failed) s) := by
    intro l
    induction l with
    | nil => intro s hs; exact hs
    | cons a l ih =>
      intro s hs
      exact ih _ (hstep s a hs)
  exact hgen sched _ (retryInv_init n C maxRetries failed)

theorem rtaskInv_sleeps (maxRetries : Nat) (failed : Nat → Nat → Bool) (i : Nat)
    (t : RTask) (h : RTaskInv maxRetries failed i t) :
    ∃ m, t.sleeps = (List.range m).map backoffMs := by
  rcases t with ⟨pc, calls, acq, sleeps⟩
  cases pc with
  | start =>
    have hs : sleeps = [] := h.2.2
    refine ⟨0, ?_⟩
    show sleeps = (List.range 0).map backoffMs
    rw [hs]
    rfl
  | ready a b => exact ⟨a, h.2.2.2.2⟩
  | inCall a b => exact ⟨a, h.2.2.2.2⟩
  | responded a b => exact ⟨a, h.2.2.2.2⟩
  | backingOff a b => exact ⟨a - 1, h.2.2.2.2.2⟩
  | donePC ok =>
    rcases h.2.2.2.2 with ⟨m, _, hm⟩
    exact ⟨m, hm⟩

theorem rtaskInv_calls_le (maxRetries : Nat) (failed : Nat → Nat → Bool) (i : Nat)
    (t : RTask) (h : RTaskInv maxRetries failed i t) :
    t.calls ≤ maxRetries + 1 := by
  rcases t with ⟨pc, calls, acq, sleeps⟩
  show calls ≤ maxRetries + 1
  cases pc with
  | start =>
    have h2 : calls = 0 := h.2.1
    omega
  | ready a b =>
    have h2 : calls = a := h.2.2.2.1
    have h3 : a ≤ maxRetries := h.2.1
    omega
  | inCall a b =>
    have h2 : calls = a + 1 := h.2.2.2.1
    have h3 : a ≤ maxRetries := h.2.1
    omega
  | responded a b =>
    have h2 : calls = a + 1 := h.2.2.2.1
    have h3 : a ≤ maxRetries := h.2.1
    omega
  | backingOff a b =>
    have h2 : calls = a := h.2.2.2.2.1
    have h3 : a ≤ maxRetries := h.2.2.1
    omega
  | donePC ok => exact h.2.1

/-! ### Claim theorems for the concurrent drivers -/

/-- C2: under every cooperative schedule — hence at every point of every run,
since every reachable state is the final state of some schedule prefix — the
number of tool calls simultaneously in flight never exceeds the `concurrency`
bound `C`, in both the fan-out and the retry-storm drivers: in-flight tasks
hold a semaphore permit, and permits are conserved. -/
theorem admission_gate_C2 (n C maxRetries : Nat) (failed : Nat → Nat → Bool)
    (schedF schedR : List Nat) :
    (scenario_fanout n C schedF).tasks.countP inFlight ≤ C
    ∧ (scenario_retry_storm n C maxRetries failed schedR).tasks.countP
        (fun t => rInFlight t.pc) ≤ C := by
  constructor
  · have h := fanoutInv_run n C schedF
    have hmono : (scenario_fanout n C schedF).tasks.countP inFlight
        ≤ (scenario_fanout n C schedF).tasks.countP holdsSem := by
      apply List.countP_mono_left
      intro pc _
      cases pc <;> simp [inFlight, holdsSem]
    have hs := h.semAcct
    omega
  · have h := retryInv_run n C maxRetries failed schedR
    have hmono : (scenario_retry_storm n C maxRetries failed schedR).tasks.countP
          (fun t => rInFlight t.pc)
        ≤ (scenario_retry_storm n C maxRetries failed schedR).tasks.countP
          (fun t => rHolds t.pc) := by
      apply List.countP_mono_left
      intro u _
      rcases u with ⟨pc, calls, acq, sleeps⟩
      cases pc <;> simp [rInFlight, rHolds]
    have hs := h.semAcct
    omega

/-- C3: every retry-storm worker makes at most `max_retries + 1` tool-call
attempts.  Under the all-fail oracle — and `error_rate = 1.0` makes every
backend draw fail, last conjunct — every finished worker made exactly
`max_retries + 1` attempts and holds the returned value `{ok: false}` (the
exhaustion branch returns a value instead of raising).  The planner's gather
resumes only once every sibling worker has finished, successful or
exhausted. -/
theorem retry_exhaustion_C3 (n C maxRetries : Nat) (failed : Nat → Nat → Bool)
    (sched : List Nat) :
    (∀ t ∈ (scenario_retry_storm n C maxRetries failed sched).tasks,
        t.calls ≤ maxRetries + 1)
    ∧ ((∀ i a, failed i a = true) →
        ∀ t ∈ (scenario_retry_storm n C maxRetries failed sched).tasks,
          rIsDone t.pc = true → t.pc = RPC.donePC false ∧ t.calls = maxRetries + 1)
    ∧ ((scenario_retry_storm n C maxRetries failed sched).ppc ≠ PPC.gathering →
        ∀ t ∈ (scenario_retry_storm n C maxRetries failed sched).tasks,
          rIsDone t.pc = true)
    ∧ (∀ (q d : ℚ) (p : Nat), 0 ≤ q → q < 1 →
        tool_call q 1 d false p = ToolReply.unavailable) := by
  have h := retryInv_run n C maxRetries failed sched
  refine ⟨?_, ?_, h.joinBarrier, ?_⟩
  · intro t ht
    rcases List.mem_iff_getElem?.mp ht with ⟨j, hj⟩
    exact rtaskInv_calls_le maxRetries failed j t (h.taskInv j t hj)
  · intro hall t ht hdone
    rcases List.mem_iff_getElem?.mp ht with ⟨j, hj⟩
    have hti := h.taskInv j t hj
    rcases t with ⟨pc, calls, acq, sleeps⟩
    cases pc with
    | donePC ok =>
      cases ok with
      | false =>
        refine ⟨rfl, ?_⟩
        show calls = maxRetries + 1
        exact hti.2.2.1 rfl
      | true =>
        rcases hti.2.2.2.1 rfl with ⟨k, _, hfk, _⟩
        rw [hall j k] at hfk
        exact Bool.noConfusion hfk
    | start => exact Bool.noConfusion hdone
    | ready a b => exact Bool.noConfusion hdone
    | inCall a b => exact Bool.noConfusion hdone
    | responded a b => exact Bool.noConfusion hdone
    | backingOff a b => exact Bool.noConfusion hdone
  · intro q d p _ hq1
    rw [tool_call, if_pos hq1]

set_option maxRecDepth 8000 in
/-- C3 witness: three workers, `max_retries = 1`, all-fail oracle, run to
completion by `retrySchedW`: every worker ends `{ok: false}` after exactly 2
attempts. -/
theorem retry_exhaustion_C3_witness :
    ((scenario_retry_storm 3 2 1 (fun _ _ => true) retrySchedW).tasks.all
      (fun t => t.pc == RPC.donePC false && t.calls == 2)) = true := by
  rw [List.all_eq_true]
  intro t ht
  have hdone := (retry_exhaustion_C3 3 2 1 (fun _ _ => true) retrySchedW).2.2.1
    (by decide) t ht
  have h2 := (retry_exhaustion_C3 3 2 1 (fun _ _ => true) retrySchedW).2.1
    (fun _ _ => rfl) t ht hdone
  rw [h2.1, h2.2]
  decide

/-- C4: in every run of the retry-storm driver, each worker's backoff sleeps
are, in order, exactly `min(20 * 2^j, 500)` ms: the first interval is 20 ms,
each successive interval is the double of the previous one capped at 500 ms,
and no interval ever exceeds 500 ms. -/
theorem retry_backoff_C4 (n C maxRetries : Nat) (failed : Nat → Nat → Bool)
    (sched : List Nat) (t : RTask)
    (ht : t ∈ (scenario_retry_storm n C maxRetries failed sched).tasks) :
    (∀ j : Nat, j < t.sleeps.length → t.sleeps[j]? = some (min (20 * 2 ^ j) 500))
    ∧ (t.sleeps ≠ [] → t.sleeps[0]? = some 20)
    ∧ (∀ b ∈ t.sleeps, b ≤ 500)
    ∧ (∀ j : Nat, j + 1 < t.sleeps.length →
        t.sleeps[j + 1]? = (t.sleeps[j]?).map (fun b => min (b * 2) 500)) := by
  have h := retryInv_run n C maxRetries failed sched
  rcases List.mem_iff_getElem?.mp ht with ⟨i, hi⟩
  rcases rtaskInv_sleeps maxRetries failed i t (h.taskInv i t hi) with ⟨m, hm⟩
  have hlen : t.sleeps.length = m := by rw [hm, List.length_map, List.length_range]
  have hj : ∀ j : Nat, j < t.sleeps.length → t.sleeps[j]? = some (backoffMs j) := by
    intro j hjlt
    rw [hlen] at hjlt
    rw [hm, List.getElem?_map, List.getElem?_range hjlt]
    rfl
  refine ⟨?_, ?_, ?_, ?_⟩
  · intro j hjlt
    rw [hj j hjlt]
    rfl
  · intro hne
    have h0 : 0 < t.sleeps.length := List.length_pos.mpr hne
    rw [hj 0 h0, backoffMs_zero]
  · intro b hb
    rw [hm] at hb
    rcases List.mem_map.mp hb with ⟨k, _, hk⟩
    rw [← hk]
    exact backoffMs_le k
  · intro j hjlt
    rw [hj (j + 1) hjlt, hj j (by omega), backoffMs_succ]
    rfl

set_option maxRecDepth 8000 in
/-- C4 witness: a single all-fail worker observed after two backoff sleeps:
its recorded intervals are 20 ms then 40 ms. -/
theorem retry_backoff_C4_witness :
    (⟨RPC.ready 2 80, 2, 1, [20, 40]⟩ : RTask)
        ∈ (scenario_retry_storm 1 1 2 (fun _ _ => true) (List.replicate 9 1)).tasks
    ∧ ([20, 40] : List Nat)[0]? = some 20
    ∧ ([20, 40] : List Nat)[1]? = some (min (20 * 2 ^ 1) 500) := by
  have hmem : (⟨RPC.ready 2 80, 2, 1, [20, 40]⟩ : RTask)
      ∈ (scenario_retry_storm 1 1 2 (fun _ _ => true) (List.replicate 9 1)).tasks := by
    decide
  have h := retry_backoff_C4 1 1 2 (fun _ _ => true) (List.replicate 9 1) _ hmem
  exact ⟨hmem, h.2.1 (by decide), h.1 1 (by decide)⟩

/-- C9: a retry-storm worker acquires the admission semaphore exactly once —
its acquisition count is 1 exactly when it has left `start` — and holds the
permit through every attempt and backoff sleep, releasing it only on return,
so a worker sleeping in backoff still occupies one of the `concurrency`
permits: free permits plus backing-off workers plus in-flight calls never
exceed `concurrency`. -/
theorem retry_gate_hold_C9 (n C maxRetries : Nat) (failed : Nat → Nat → Bool)
    (sched : List Nat) :
    (∀ t ∈ (scenario_retry_storm n C maxRetries failed sched).tasks,
        t.acquires ≤ 1 ∧ (t.acquires = 1 ↔ t.pc ≠ RPC.start))
    ∧ (∀ t ∈ (scenario_retry_storm n C maxRetries failed sched).tasks,
        rBackingOff t.pc = true → rHolds t.pc = true)
    ∧ (∀ t ∈ (scenario_retry_storm n C maxRetries failed sched).tasks,
        rIsDone t.pc = true → rHolds t.pc = false)
    ∧ ((scenario_retry_storm n C maxRetries failed sched).sem
        + (scenario_retry_storm n C maxRetries failed sched).tasks.countP
            (fun t => rHolds t.pc) = C)
    ∧ ((scenario_retry_storm n C maxRetries failed sched).sem
        + (scenario_retry_storm n C maxRetries failed sched).tasks.countP
            (fun t => rBackingOff t.pc)
        + (scenario_retry_storm n C maxRetries failed sched).tasks.countP
            (fun t => rInFlight t.pc) ≤ C) := by
  have h := retryInv_run n C maxRetries failed sched
  refine ⟨?_, ?_, ?_, h.semAcct, ?_⟩
  · intro t ht
    rcases List.mem_iff_getElem?.mp ht with ⟨i, hi⟩
    have hti := h.taskInv i t hi
    rcases t with ⟨pc, calls, acq, sleeps⟩
    cases pc with
    | start =>
      have h0 : acq = 0 := hti.1
      refine ⟨?_, ?_, ?_⟩
      · show acq ≤ 1
        omega
      · intro h1
        exact absurd (show acq = 1 from h1) (by omega)
      · intro h1
        exact absurd rfl h1
    | ready a b =>
      refine ⟨?_, fun _ => ?_, fun _ => hti.1⟩
      · show acq ≤ 1
        have h1 : acq = 1 := hti.1
        omega
      · intro hcon
        cases hcon
    | inCall a b =>
      refine ⟨?_, fun _ => ?_, fun _ => hti.1⟩
      · show acq ≤ 1
        have h1 : acq = 1 := hti.1
        omega
      · intro hcon
        cases hcon
    | responded a b =>
      refine ⟨?_, fun _ => ?_, fun _ => hti.1⟩
      · show acq ≤ 1
        have h1 : acq = 1 := hti.1
        omega
      · intro hcon
        cases hcon
    | backingOff a b =>
      refine ⟨?_, fun _ => ?_, fun _ => hti.1⟩
      · show acq ≤ 1
        have h1 : acq = 1 := hti.1
        omega
      · intro hcon
        cases hcon
    | donePC ok =>
      refine ⟨?_, fun _ => ?_, fun _ => hti.1⟩
      · show acq ≤ 1
        have h1 : acq = 1 := hti.1
        omega
      · intro hcon
        cases hcon
  · intro t _ hb
    rcases t with ⟨pc, calls, acq, sleeps⟩
    cases pc <;> first | rfl | exact Bool.noConfusion hb
  · intro t _ hd
    rcases t with ⟨pc, calls, acq, sleeps⟩
    cases pc <;> first | rfl | exact Bool.noConfusion hd
  · have hle := countP_add_countP_le
      (scenario_retry_storm n C maxRetries failed sched).tasks
      (fun t => rBackingOff t.pc) (fun t => rInFlight t.pc)
      (fun t => rHolds t.pc) ?side
    case side =>
      intro u _
      rcases u with ⟨pc, calls, acq, sleeps⟩
      cases pc <;> refine ⟨?_, ?_, ?_⟩ <;>
        simp [rBackingOff, rInFlight, rHolds]
    have hs := h.semAcct
    omega

set_option maxRecDepth 8000 in
/-- C9 witness: two workers on a width-2 gate, one backing off and one with a
call in flight: both permits are taken and the backing-off worker has
acquired exactly once. -/
theorem retry_gate_hold_C9_witness :
    ((⟨RPC.backingOff 1 20, 1, 1, []⟩ : RTask).acquires = 1)
    ∧ ((scenario_retry_storm 2 2 3 (fun _ _ => true) [1, 1, 1, 1, 2, 2]).sem
        + (scenario_retry_storm 2 2 3 (fun _ _ => true) [1, 1, 1, 1, 2, 2]).tasks.countP
            (fun t => rBackingOff t.pc)
        + (scenario_retry_storm 2 2 3 (fun _ _ => true) [1, 1, 1, 1, 2, 2]).tasks.countP
            (fun t => rInFlight t.pc) ≤ 2) := by
  have h := retry_gate_hold_C9 2 2 3 (fun _ _ => true) [1, 1, 1, 1, 2, 2]
  refine ⟨?_, h.2.2.2.2⟩
  exact (h.1 ⟨RPC.backingOff 1 20, 1, 1, []⟩ (by decide)).2.mpr (by decide)
